import Mathlib

/-!
# HEEPsilon example applications: reference models and harness protocol

Shallow embedding of the C sources under `sw/applications`:

* `cgra_pmean/main.c`       : `cpu_pmean`, the recurrence loop of `main`, the
  collect / compare / exit-status tail of `main`, the completion flag;
* `cgra_simple_add/main.c`  : `cpu_compute`, the compare / exit-status tail of
  `main`, the completion flag;
* `kernel_test/kernels/sha/function.h`  : `sha_transform`;
* `kernel_test/kernels/conv/function.h` : `conv2D`.

Conventions.  An `int32_t` value is an `Int`; every `+` and `-` of the source
on data is followed by `wrap32`, the reduction modulo `2^32` into the signed
range (the behaviour of the RV32 target); the counters and indices of the
counted `for` loops, which stay below 80, are exact.  `>>` on a signed value is the
arithmetic shift of the target compiler, `Int.shiftRight`.  `/` is C division:
it truncates toward zero and is an error for a zero divisor.  A C array
reached through a pointer is the `List Int` of the words from the pointer
onwards; an access outside the list is an error.
-/

namespace HEEPsilon

/-! ## Machine integers -/

/-- Reduction of an integer into the `int32_t` range, modulo `2^32`. -/
def wrap32 (z : Int) : Int := (z + 2147483648) % 4294967296 - 2147483648

/-- Reduction of an integer into the `int16_t` range, modulo `2^16`. -/
def wrap16 (z : Int) : Int := (z + 32768) % 65536 - 32768

/-- The values of type `int32_t`. -/
def isInt32 (z : Int) : Prop := -2147483648 ≤ z ∧ z < 2147483648

instance (z : Int) : Decidable (isInt32 z) := by
  unfold isInt32; exact inferInstance

/-- Errors of the embedded C code. -/
inductive CErr where
  | outOfBounds
  | divByZero
  | divOverflow
  deriving DecidableEq, Repr

/-- C `a / b` on `int32_t`: truncation toward zero; a zero divisor and
`INT32_MIN / -1` are errors. -/
def c_div32 (a b : Int) : Except CErr Int :=
  if b = 0 then .error .divByZero
  else if a = -2147483648 ∧ b = -1 then .error .divOverflow
  else .ok (Int.tdiv a b)

/-- C `a >> n` on `int32_t`: arithmetic (sign-propagating) right shift. -/
def c_shr32 (a : Int) (n : Nat) : Int := Int.shiftRight a n

/-- Read `W[k]` for a C `int` index `k`. -/
def readAt (W : List Int) (k : Int) : Except CErr Int :=
  if 0 ≤ k then
    match W[k.toNat]? with
    | some v => .ok v
    | none => .error .outOfBounds
  else .error .outOfBounds

/-- Store `W[k] = v` for a C `int` index `k`. -/
def writeAt (W : List Int) (k : Int) (v : Int) : Except CErr (List Int) :=
  if 0 ≤ k ∧ k.toNat < W.length then .ok (W.set k.toNat v) else .error .outOfBounds

/-- A counted loop `for (i = lo; i < lo + n; i++) body`, whose body changes
neither `i` nor the bound: the body runs for `i = lo, lo+1, ..., lo+n-1` in
this order on the state `s`, and an error of the body ends the loop.  A source
loop `for (i = lo; i < hi; i++)` is `forRange lo (hi - lo).toNat`, and
`for (i = lo; i <= hi; i++)` is `forRange lo (hi + 1 - lo).toNat`. -/
def forRange {σ : Type} (lo : Int) (n : Nat) (body : Int → σ → Except CErr σ) (s : σ) :
    Except CErr σ :=
  match n with
  | 0 => .ok s
  | n + 1 =>
    match body lo s with
    | .error e => .error e
    | .ok s1 => forRange (lo + 1) n body s1

/-- Modelled from the spec: the `<stdlib.h>` constant `EXIT_SUCCESS`, which is
not part of the sources; the process exit status for success is 0. -/
def EXIT_SUCCESS : Int := 0

/-- Modelled from the spec: the `<stdlib.h>` constant `EXIT_FAILURE`, which is
not part of the sources; the process exit status for failure is nonzero. -/
def EXIT_FAILURE : Int := 1

/-! ## `cgra_simple_add/main.c` -/

namespace cgra_simple_add

/-- Test data, `main.c:52`. -/
def value_a : Int := 42

/-- Test data, `main.c:53`. -/
def value_b : Int := 58

/-- Software reference implementation, `main.c:61-63`. -/
def cpu_compute (a b : Int) : Int := wrap32 (a + b)

/-- The part of `main` that decides the exit status (`main.c:66`, `102`,
`132-146`).  `a` and `b` are the contents of `value_a` and `value_b` when the
CPU reference runs; `a_after` is the content of `value_a` after the wait loop,
where the accelerator stores its result.  Returns `(exit status, errors)`. -/
def main (a b a_after : Int) : Int × Int :=
  let errors : Int := 0
  let cpu_result := cpu_compute a b
  let cgra_result := a_after
  let errors := if cgra_result ≠ cpu_result then wrap32 (errors + 1) else errors
  (if errors ≠ 0 then EXIT_FAILURE else EXIT_SUCCESS, errors)

end cgra_simple_add

/-! ## `cgra_pmean/main.c` -/

namespace cgra_pmean

/-- Input data, `main.c:28-30`. -/
def input_data : List Int := [101, 110, -1]

/-- Capacity of the result buffer, `main.c:33`. -/
def MAX_OUTPUTS : Int := 16

/-- Loop of `cpu_pmean`, `main.c:43-47`; the list is the memory from `data`
onwards. -/
def cpu_pmean_loop : List Int → Int → Int → Except CErr (Int × Int)
  | [], _, _ => .error .outOfBounds
  | x :: rest, sum, count =>
    if x ≠ -1 then cpu_pmean_loop rest (wrap32 (sum + x)) (wrap32 (count + 1))
    else .ok (sum, count)

/-- Software mean, `main.c:40-50`. -/
def cpu_pmean (data : List Int) : Except CErr Int :=
  match cpu_pmean_loop data 0 0 with
  | .error e => .error e
  | .ok (sum, count) => if count = 0 then .ok 0 else c_div32 sum count

/-- Values of the loop variables at the end of one iteration of the recurrence
loop, as printed at `main.c:71-72`. -/
structure StepLine where
  step : Int
  x : Int
  temp : Int
  acc : Int
  prev : Int
  deriving DecidableEq, Repr

/-- Body of the recurrence loop, `main.c:67-70`: the line holds the new `acc`
and `prev`. -/
def ema_step (step acc prev x : Int) : StepLine :=
  let temp := wrap32 (acc - prev)
  let acc1 := wrap32 (temp + x)
  let prev1 := c_shr32 temp 2
  { step := step, x := x, temp := temp, acc := acc1, prev := prev1 }

/-- Recurrence loop of `main`, `main.c:66-75`; the list is the memory from
`ptr` onwards.  Returns the final `acc`, the final `prev` and the lines
printed. -/
def ema_loop : List Int → Int → Int → Int → List StepLine →
    Except CErr (Int × Int × List StepLine)
  | [], _, _, _, _ => .error .outOfBounds
  | x :: rest, acc, prev, step, out =>
    if x ≠ -1 then
      let l := ema_step step acc prev x
      ema_loop rest l.acc l.prev (wrap32 (step + 1)) (out ++ [l])
    else .ok (acc, prev, out)

/-- Expected result computed by `main`, `main.c:56-77`, from the initial state
`acc = 518`, `prev = 106`, `step = 0`. -/
def main_reference (data : List Int) : Except CErr (Int × Int × List StepLine) :=
  ema_loop data 518 106 0 []

/-- Body of the scan at `main.c:119-121`:
`if (result[i] != 0) last_idx = i;`. -/
def last_idx_body (result : List Int) (i : Int) (last_idx : Int) : Except CErr Int :=
  match readAt result i with
  | .error e => .error e
  | .ok v => .ok (if v ≠ 0 then i else last_idx)

/-- Collect step of `main`, `main.c:117-122`: returns `(last_idx, cgra_final)`
for the contents `result` of the result buffer. -/
def main_collect (result : List Int) : Except CErr (Int × Int) :=
  match forRange 0 (MAX_OUTPUTS - 0).toNat (last_idx_body result) 0 with
  | .error e => .error e
  | .ok last_idx =>
    match readAt result last_idx with
    | .error e => .error e
    | .ok cgra_final => .ok (last_idx, cgra_final)

/-- The part of `main` that decides the exit status (`main.c:53`, `56-77`,
`117-135`).  `data` is the memory at `input_data`; `result` is the content of
the result buffer after the wait loop, where the accelerator stores its
outputs.  Returns `(exit status, errors)`. -/
def main (data result : List Int) : Except CErr (Int × Int) :=
  let errors : Int := 0
  match main_reference data with
  | .error e => .error e
  | .ok (_, prev, _) =>
    match main_collect result with
    | .error e => .error e
    | .ok (_, cgra_final) =>
      let errors := if cgra_final ≠ prev then wrap32 (errors + 1) else errors
      .ok (if errors ≠ 0 then EXIT_FAILURE else EXIT_SUCCESS, errors)

/-- The step of the recurrence as the specification words it:
`(acc, prev) -> (acc - prev + x, (acc - prev) >> 2)` in 32-bit arithmetic. -/
def spec_step (s : Int × Int) (x : Int) : Int × Int :=
  (wrap32 (s.1 - s.2 + x), Int.shiftRight (wrap32 (s.1 - s.2)) 2)

/-- The mean as the specification words it: 0 for the empty sequence, else the
32-bit sum divided by the count, truncated toward zero. -/
def spec_mean (xs : List Int) : Int :=
  if xs.length = 0 then 0 else Int.tdiv (wrap32 xs.sum) xs.length

end cgra_pmean

/-! ## `kernel_test/kernels/sha/function.h` -/

namespace sha

/-- Number of schedule words, `function.h:4`. -/
def N_ITERS : Int := 80

/-- Body of the loop at `function.h:8`:
`W[i] = W[i-3] ^ W[i-8] ^ W[i-14] ^ W[i-16];`. -/
def sha_body (i : Int) (W : List Int) : Except CErr (List Int) :=
  match readAt W (i - 3), readAt W (i - 8), readAt W (i - 14), readAt W (i - 16) with
  | .ok a, .ok b, .ok c, .ok d => writeAt W i (Int.xor (Int.xor (Int.xor a b) c) d)
  | _, _, _, _ => .error .outOfBounds

/-- Schedule expansion, `function.h:6-10`:
`for (int i = 16; i < N_ITERS; ++i) ...; return W;`. -/
def sha_transform (W : List Int) : Except CErr (List Int) :=
  forRange 16 (N_ITERS - 16).toNat sha_body W

end sha

/-! ## `kernel_test/kernels/conv/function.h`

The macros of the header are textual: `FILT_HALF` is `FILT_WIN/2`, so
`-FILT_HALF` is `-FILT_WIN/2`, the truncating quotient of `-3` by `2`, and
`IMG_DIM`, `FILT_DIM` are `IMG_ROW*IMG_COL`, `FILT_WIN*FILT_WIN`.  The loop
counters and indices stay within `-1 .. 9`, so their arithmetic is exact; the
accumulator `S` is reduced with `wrap32` and the store into the `int16_t`
pixel with `wrap16`. -/

namespace conv

/-- Image rows, `function.h:6`. -/
def IMG_ROW : Int := 3

/-- Image columns, `function.h:7`. -/
def IMG_COL : Int := 3

/-- Filter window, `function.h:10`. -/
def FILT_WIN : Int := 3

/-- Filter coefficient, `function.h:20`. -/
def FILTER_COEFF : Int := 1

/-- Input image, `function.h:23`. -/
def In_Img : List Int := [1, 2, 3, 4, 5, 6, 7, 8, 9]

/-- Filter kernel, `function.h:26-28`: the `FILT_WIN*FILT_WIN` entries with
indices `0 ... FILT_WIN*FILT_WIN-1` all hold `FILTER_COEFF`. -/
def Filter_Kern : List Int := List.replicate (FILT_WIN * FILT_WIN).toNat FILTER_COEFF

/-- Body of the innermost loop, `function.h:54-62`. -/
def conv_tap (r c i j : Int) (S : Int) : Except CErr Int :=
  let k := (r + i) * IMG_COL + (c + j)
  match readAt In_Img k with
  | .error e => .error e
  | .ok data =>
    let w := (i + Int.tdiv FILT_WIN 2) * FILT_WIN + (j + Int.tdiv FILT_WIN 2)
    match readAt Filter_Kern w with
    | .error e => .error e
    | .ok coeff => .ok (wrap32 (S + wrap32 (coeff * data)))

/-- The filter-window loops, `function.h:51-64`, from `S = 0`. -/
def conv_window (r c : Int) : Except CErr Int :=
  forRange (Int.tdiv (-FILT_WIN) 2) (Int.tdiv FILT_WIN 2 + 1 - Int.tdiv (-FILT_WIN) 2).toNat
    (fun i S =>
      forRange (Int.tdiv (-FILT_WIN) 2) (Int.tdiv FILT_WIN 2 + 1 - Int.tdiv (-FILT_WIN) 2).toNat
        (fun j S => conv_tap r c i j S) S)
    0

/-- Body of the pixel loops, `function.h:41-66`.  The state is the output
image together with the list of the indices stored to so far. -/
def conv_pixel (r c : Int) (st : List Int × List Int) : Except CErr (List Int × List Int) :=
  let t := r * IMG_COL + c
  match conv_window r c with
  | .error e => .error e
  | .ok S =>
    match writeAt st.1 t (wrap16 S) with
    | .error e => .error e
    | .ok Out_Img => .ok (Out_Img, st.2 ++ [t])

/-- Convolution `conv2D`, `function.h:30-69`.  Returns the output image and the list
of the indices it stored to, in order. -/
def conv2D (Out_Img : List Int) : Except CErr (List Int × List Int) :=
  forRange (Int.tdiv FILT_WIN 2) (IMG_ROW - Int.tdiv FILT_WIN 2 - Int.tdiv FILT_WIN 2).toNat
    (fun r st =>
      forRange (Int.tdiv FILT_WIN 2) (IMG_COL - Int.tdiv FILT_WIN 2 - Int.tdiv FILT_WIN 2).toNat
        (fun c st => conv_pixel r c st) st)
    (Out_Img, [])

/-- The weighted sum as the specification words it: the sum over `k = 0..8` of
`Filter_Kern[k] * In_Img[k]`. -/
def spec_weighted_sum : Int :=
  ((List.range 9).map (fun k => Filter_Kern.getD k 0 * In_Img.getD k 0)).sum

end conv

/-! ## The completion flag and the interrupt (`cgra_pmean/main.c`,
`cgra_simple_add/main.c`)

Each `main` is the sequence of its statements.  A state holds the position in
that sequence, the flag `cgra_intr_flag`, the interrupt enables the sources
set, and counters of the runs of `handler_irq_cgra`.  A step is either the
next statement of `main` or, when the interrupt is enabled, one run of the
handler. -/

/-- The statements of a harness `main`, as far as the flag and the interrupt
are concerned. -/
inductive Op where
  /-- A statement (at the given source line) that touches neither the flag nor
  the interrupt enables nor the kernel launch. -/
  | stmt (line : Nat)
  /-- Statement `plic_irq_set_priority(CGRA_INTR, 1);` -/
  | plicSetPriority
  /-- Statement `plic_irq_set_enabled(CGRA_INTR, kPlicToggleEnabled);` -/
  | plicSetEnabled
  /-- Statement `plic_assign_external_irq_handler(CGRA_INTR, (void*)&handler_irq_cgra);` -/
  | plicAssignHandler
  /-- Statement `CSR_SET_BITS(CSR_REG_MSTATUS, 0x8);` -/
  | setMstatusMie
  /-- Statement `CSR_SET_BITS(CSR_REG_MIE, mask);` with `mask = 1 << 11` -/
  | setMieMeie
  /-- Statement `cgra_intr_flag = 0;` -/
  | clearFlag
  /-- Statement `cgra_set_kernel(&cgra, CGRA_KERNEL);`, the kernel launch. -/
  | setKernel
  /-- The test `cgra_intr_flag == 0` of the `while` loop. -/
  | loopTest
  /-- Statement `wait_for_interrupt();`, the body of the `while` loop. -/
  | waitForInterrupt
  deriving DecidableEq, Repr

/-- State of a harness run. -/
structure HState where
  /-- Index of the next statement of `main`. -/
  pc : Nat
  /-- The global `volatile int8_t cgra_intr_flag`. -/
  cgra_intr_flag : Int
  plicPriority : Bool
  plicEnabled : Bool
  handlerAssigned : Bool
  mstatusMie : Bool
  mieMeie : Bool
  /-- Whether `cgra_set_kernel` has been called. -/
  launched : Bool
  /-- Whether `main` has stored 0 to the flag at least once. -/
  cleared : Bool
  /-- Runs of the handler since `main` last stored 0 to the flag. -/
  runsSinceClear : Nat
  /-- Runs of the handler since `cgra_set_kernel` was last called. -/
  runsSinceLaunch : Nat
  deriving DecidableEq, Repr

/-- State at the entry of `main`, the flag holding `f0`. -/
def HState.init (f0 : Int) : HState :=
  { pc := 0, cgra_intr_flag := f0, plicPriority := false, plicEnabled := false,
    handlerAssigned := false, mstatusMie := false, mieMeie := false, launched := false,
    cleared := false, runsSinceClear := 0, runsSinceLaunch := 0 }

/-- The interrupt of the accelerator can be taken. -/
def HState.irqEnabled (s : HState) : Bool :=
  s.plicPriority && s.plicEnabled && s.handlerAssigned && s.mstatusMie && s.mieMeie

/-- The interrupt handler (`cgra_pmean/main.c:36-38`,
`cgra_simple_add/main.c:56-58`): `cgra_intr_flag = 1;`. -/
def handler_irq_cgra (s : HState) : HState :=
  { s with cgra_intr_flag := 1, runsSinceClear := s.runsSinceClear + 1,
           runsSinceLaunch := s.runsSinceLaunch + 1 }

/-- Effect of one statement of `main`. -/
def execOp (op : Op) (s : HState) : HState :=
  match op with
  | .stmt _ => { s with pc := s.pc + 1 }
  | .plicSetPriority => { s with pc := s.pc + 1, plicPriority := true }
  | .plicSetEnabled => { s with pc := s.pc + 1, plicEnabled := true }
  | .plicAssignHandler => { s with pc := s.pc + 1, handlerAssigned := true }
  | .setMstatusMie => { s with pc := s.pc + 1, mstatusMie := true }
  | .setMieMeie => { s with pc := s.pc + 1, mieMeie := true }
  | .clearFlag => { s with pc := s.pc + 1, cgra_intr_flag := 0, cleared := true,
                           runsSinceClear := 0 }
  | .setKernel => { s with pc := s.pc + 1, launched := true, runsSinceLaunch := 0 }
  | .loopTest => if s.cgra_intr_flag = 0 then { s with pc := s.pc + 1 }
                 else { s with pc := s.pc + 2 }
  | .waitForInterrupt => { s with pc := s.pc - 1 }

/-- Who takes a step. -/
inductive Actor where
  /-- The next statement of `main`. -/
  | harness
  /-- One run of the interrupt handler. -/
  | irq
  deriving DecidableEq, Repr

/-- One step; `none` when `main` has returned, or when the handler is to run
while the interrupt is not enabled. -/
def hstep (prog : List Op) (a : Actor) (s : HState) : Option HState :=
  match a with
  | .harness =>
    match prog[s.pc]? with
    | some op => some (execOp op s)
    | none => none
  | .irq => if s.irqEnabled then some (handler_irq_cgra s) else none

/-- Run a schedule, first step first. -/
def hrun (prog : List Op) : List Actor → HState → Option HState
  | [], s => some s
  | a :: as, s =>
    match hstep prog a s with
    | some s1 => hrun prog as s1
    | none => none

/-- The wait loop of `prog` has been left: the position is past the body of
the loop. -/
def HState.exited (prog : List Op) (s : HState) : Prop :=
  prog.indexOf Op.waitForInterrupt < s.pc

instance (prog : List Op) (s : HState) : Decidable (s.exited prog) := by
  unfold HState.exited; exact inferInstance

/-- The state in which `main` has just left the wait loop (statement 28 of
either harness is next) after one run of the handler. -/
def HState.leftLoop : HState :=
  { pc := 28, cgra_intr_flag := 1, plicPriority := true, plicEnabled := true,
    handlerAssigned := true, mstatusMie := true, mieMeie := true, launched := true,
    cleared := true, runsSinceClear := 1, runsSinceLaunch := 1 }

/-- The state at the loop test (statement 26 of either harness) in which the
handler has run once since the launch and the flag holds 0. -/
def HState.lostSignal : HState :=
  { pc := 26, cgra_intr_flag := 0, plicPriority := true, plicEnabled := true,
    handlerAssigned := true, mstatusMie := true, mieMeie := true, launched := true,
    cleared := true, runsSinceClear := 0, runsSinceLaunch := 1 }

/-- The statements of `main` in `cgra_pmean/main.c`, lines 53 to 135. -/
def cgra_pmean.main_ops : List Op :=
  [ .stmt 53, .stmt 55, .stmt 58, .stmt 59, .stmt 61, .stmt 62, .stmt 64, .stmt 66, .stmt 77,
    .stmt 79, .stmt 81, .plicSetPriority, .plicSetEnabled, .plicAssignHandler,
    .setMstatusMie, .stmt 87, .setMieMeie,
    .clearFlag,                                     -- line 89
    .stmt 92, .stmt 94, .stmt 95, .stmt 98, .stmt 100, .stmt 102,
    .setKernel,                                     -- line 103
    .clearFlag,                                     -- line 105
    .loopTest,                                      -- line 106
    .waitForInterrupt,                              -- line 107
    .stmt 109, .stmt 112, .stmt 113, .stmt 118, .stmt 119, .stmt 122, .stmt 124, .stmt 126,
    .stmt 133, .stmt 135 ]

/-- The statements of `main` in `cgra_simple_add/main.c`, lines 66 to 146
(the `PRINTF` lines expand to nothing). -/
def cgra_simple_add.main_ops : List Op :=
  [ .stmt 66, .stmt 68, .stmt 72, .stmt 76, .plicSetPriority, .plicSetEnabled,
    .plicAssignHandler, .setMstatusMie, .stmt 83, .setMieMeie,
    .clearFlag,                                     -- line 85
    .stmt 89, .stmt 94, .stmt 95, .stmt 96, .stmt 97, .stmt 99, .stmt 102, .stmt 103,
    .stmt 107, .stmt 108, .stmt 111, .stmt 114, .stmt 117,
    .setKernel,                                     -- line 121
    .clearFlag,                                     -- line 124
    .loopTest,                                      -- line 125
    .waitForInterrupt,                              -- line 126
    .stmt 132, .stmt 133, .stmt 136, .stmt 144, .stmt 146 ]

/-- The right-hand side of the schedule law at index `j`, read from `W`:
`W[j-3] ^ W[j-8] ^ W[j-14] ^ W[j-16]`. -/
def sha_mix (W : List Int) (j : Nat) : Int :=
  Int.xor (Int.xor (Int.xor (W.getD (j - 3) 0) (W.getD (j - 8) 0)) (W.getD (j - 14) 0))
    (W.getD (j - 16) 0)

/-- The statement touches neither the flag nor the interrupt nor the launch. -/
def Op.isStmt : Op → Bool
  | .stmt _ => true
  | _ => false

/-- Shape of a harness around its wait loop: the launch is statement `L`, then
come the store of 0 to the flag, the loop test and the loop body; before `L`
there is no launch and no loop, and after the loop only plain statements. -/
structure WaitShape (prog : List Op) (L : Nat) : Prop where
  hk : prog[L]? = some Op.setKernel
  hc : prog[L + 1]? = some Op.clearFlag
  ht : prog[L + 2]? = some Op.loopTest
  hw : prog[L + 3]? = some Op.waitForInterrupt
  hpre : ∀ i, i < L → prog[i]? ≠ some Op.setKernel ∧ prog[i]? ≠ some Op.loopTest
    ∧ prog[i]? ≠ some Op.waitForInterrupt
  hpost : ∀ i, i < prog.length → L + 3 < i → prog[i]?.map Op.isStmt = some true

/-- Invariant of the runs of a harness whose launch is statement `L`. -/
def WaitInv (L : Nat) (s : HState) : Prop :=
  (s.cleared = true → s.cgra_intr_flag ≠ 0 → 1 ≤ s.runsSinceClear)
  ∧ (L < s.pc → s.launched = true)
  ∧ (L + 1 < s.pc → s.cleared = true ∧ s.runsSinceClear ≤ s.runsSinceLaunch)
  ∧ (L + 3 < s.pc → s.cgra_intr_flag ≠ 0 ∧ 1 ≤ s.runsSinceClear)

/-! ## Lemmas on machine integers -/

theorem wrap32_add_wrap32_left (a b : Int) : wrap32 (wrap32 a + b) = wrap32 (a + b) := by
  unfold wrap32; omega

theorem wrap32_isInt32 (a : Int) : isInt32 (wrap32 a) := by
  unfold wrap32 isInt32; omega

theorem wrap32_of_isInt32 (a : Int) (h : isInt32 a) : wrap32 a = a := by
  unfold isInt32 at h; unfold wrap32; omega

theorem c_shr32_two (a : Int) : c_shr32 a 2 = a / 4 := by
  show a >>> (2 : Nat) = a / 4
  rw [Int.shiftRight_eq_div_pow]
  norm_num

/-! ## Lemmas on the `cgra_pmean` loops -/

theorem ema_step_eq_spec_step (step acc prev x : Int) :
    ((cgra_pmean.ema_step step acc prev x).acc, (cgra_pmean.ema_step step acc prev x).prev)
      = cgra_pmean.spec_step (acc, prev) x := by
  simp [cgra_pmean.ema_step, cgra_pmean.spec_step, c_shr32, wrap32_add_wrap32_left]

theorem ema_loop_sentinel (xs rest : List Int) (hxs : ∀ x ∈ xs, x ≠ -1) :
    ∀ (acc prev step : Int) (out : List cgra_pmean.StepLine),
      ∃ out1, cgra_pmean.ema_loop (xs ++ -1 :: rest) acc prev step out
        = .ok ((xs.foldl cgra_pmean.spec_step (acc, prev)).1,
            (xs.foldl cgra_pmean.spec_step (acc, prev)).2, out1) := by
  induction xs with
  | nil => intro acc prev step out; exact ⟨out, by simp [cgra_pmean.ema_loop]⟩
  | cons y ys ih =>
    intro acc prev step out
    have hy : y ≠ -1 := hxs y (List.mem_cons_self _ _)
    have hys : ∀ x ∈ ys, x ≠ -1 := fun x hx => hxs x (List.mem_cons_of_mem _ hx)
    obtain ⟨out1, h1⟩ := ih hys (cgra_pmean.ema_step step acc prev y).acc
      (cgra_pmean.ema_step step acc prev y).prev
      (wrap32 (step + 1)) (out ++ [cgra_pmean.ema_step step acc prev y])
    refine ⟨out1, ?_⟩
    simp only [List.cons_append, cgra_pmean.ema_loop, if_pos hy, List.foldl_cons, List.append_eq]
    rw [← ema_step_eq_spec_step step]
    exact h1

theorem cpu_pmean_loop_sentinel (xs rest : List Int) (hxs : ∀ x ∈ xs, x ≠ -1) :
    ∀ (sum count : Int), isInt32 sum → isInt32 count →
      cgra_pmean.cpu_pmean_loop (xs ++ -1 :: rest) sum count
        = .ok (wrap32 (sum + xs.sum), wrap32 (count + xs.length)) := by
  induction xs with
  | nil =>
    intro sum count hs hc
    simp [cgra_pmean.cpu_pmean_loop, wrap32_of_isInt32 _ hs, wrap32_of_isInt32 _ hc]
  | cons y ys ih =>
    intro sum count _ _
    have hy : y ≠ -1 := hxs y (List.mem_cons_self _ _)
    have hys : ∀ x ∈ ys, x ≠ -1 := fun x hx => hxs x (List.mem_cons_of_mem _ hx)
    have h := ih hys (wrap32 (sum + y)) (wrap32 (count + 1)) (wrap32_isInt32 _) (wrap32_isInt32 _)
    simp only [List.cons_append, cgra_pmean.cpu_pmean_loop, if_pos hy, List.sum_cons,
      List.length_cons, List.append_eq]
    rw [h, wrap32_add_wrap32_left, wrap32_add_wrap32_left]
    push_cast
    congr 2 <;> ring_nf

/-! ## Lemmas on array accesses -/

theorem readAt_ofNat (W : List Int) (j : Nat) (h : j < W.length) :
    readAt W (j : Int) = .ok (W.getD j 0) := by
  unfold readAt
  simp [List.getD, List.getElem?_eq_getElem h]

theorem writeAt_ofNat (W : List Int) (j : Nat) (v : Int) (h : j < W.length) :
    writeAt W (j : Int) v = .ok (W.set j v) := by
  unfold writeAt
  simp [h]

theorem getD_set_self (W : List Int) (j : Nat) (v : Int) (h : j < W.length) :
    (W.set j v).getD j 0 = v := by
  simp [List.getD_eq_getElem?_getD, List.getElem?_set, h]

theorem getD_set_other (W : List Int) (i j : Nat) (v : Int) (h : i ≠ j) :
    (W.set i v).getD j 0 = W.getD j 0 := by
  simp [List.getD_eq_getElem?_getD, List.getElem?_set, h]

/-! ## Lemmas on `conv2D` -/

theorem conv_window_center : conv.conv_window 1 1 = .ok 45 := by rfl

theorem conv_bounds :
    Int.tdiv conv.FILT_WIN 2 = 1
    ∧ (conv.IMG_ROW - 1 - 1).toNat = 1
    ∧ (conv.IMG_COL - 1 - 1).toNat = 1 := by
  decide

theorem conv2D_eq (Out_Img : List Int) (hlen : Out_Img.length = 9) :
    conv.conv2D Out_Img = .ok (Out_Img.set 4 45, [4]) := by
  have hw : writeAt Out_Img (1 * conv.IMG_COL + 1) (wrap16 45) = .ok (Out_Img.set 4 45) :=
    writeAt_ofNat Out_Img 4 45 (by omega)
  unfold conv.conv2D
  rw [conv_bounds.1, conv_bounds.2.1, conv_bounds.2.2]
  simp only [forRange, conv.conv_pixel, conv_window_center, hw, List.nil_append]
  rfl

/-! ## Lemmas on the collect step -/

theorem last_idx_scan (result : List Int) (hlen : result.length = 16) :
    ∀ (n lo : Nat) (last : Int), lo + n = 16 →
      ∃ L : Int, forRange (lo : Int) n (cgra_pmean.last_idx_body result) last = .ok L
        ∧ ((∀ j, lo ≤ j → j < 16 → result.getD j 0 = 0) → L = last)
        ∧ ((∃ j, lo ≤ j ∧ j < 16 ∧ result.getD j 0 ≠ 0) →
            ∃ m : Nat, L = m ∧ lo ≤ m ∧ m < 16 ∧ result.getD m 0 ≠ 0
              ∧ ∀ j, m < j → j < 16 → result.getD j 0 = 0) := by
  intro n
  induction n with
  | zero =>
    intro lo last h
    refine ⟨last, rfl, fun _ => rfl, ?_⟩
    rintro ⟨j, h1, h2, _⟩
    omega
  | succ n ih =>
    intro lo last h
    have hr : readAt result (lo : Int) = .ok (result.getD lo 0) :=
      readAt_ofNat _ _ (by omega)
    obtain ⟨L, hL, hz, hnz⟩ :=
      ih (lo + 1) (if result.getD lo 0 ≠ 0 then (lo : Int) else last) (by omega)
    refine ⟨L, ?_, ?_, ?_⟩
    · simp only [forRange, cgra_pmean.last_idx_body, hr]
      push_cast at hL
      exact hL
    · intro hall
      have h0 := hall lo (le_refl _) (by omega)
      rw [hz (fun j hj hj2 => hall j (by omega) hj2), if_neg (not_not.mpr h0)]
    · rintro ⟨j, hj1, hj2, hj3⟩
      by_cases hex : ∃ j, lo + 1 ≤ j ∧ j < 16 ∧ result.getD j 0 ≠ 0
      · obtain ⟨m, hm⟩ := hnz hex
        exact ⟨m, hm.1, by omega, hm.2.2.1, hm.2.2.2.1, hm.2.2.2.2⟩
      · have hall : ∀ j, lo + 1 ≤ j → j < 16 → result.getD j 0 = 0 := by
          intro j' h1 h2
          by_contra hne
          exact hex ⟨j', h1, h2, hne⟩
        have hjlo : j = lo := by
          by_contra hne
          exact hj3 (hall j (by omega) hj2)
        subst hjlo
        refine ⟨j, ?_, le_refl _, hj2, hj3, fun j' h1 h2 => hall j' (by omega) h2⟩
        rw [hz hall, if_pos hj3]

theorem main_collect_spec (result : List Int) (hlen : result.length = 16) :
    ∃ last_idx : Nat, last_idx < 16
      ∧ cgra_pmean.main_collect result = .ok ((last_idx : Int), result.getD last_idx 0)
      ∧ ((∃ i, i < 16 ∧ result.getD i 0 ≠ 0) →
          result.getD last_idx 0 ≠ 0 ∧ ∀ j, last_idx < j → j < 16 → result.getD j 0 = 0)
      ∧ ((∀ i, i < 16 → result.getD i 0 = 0) → last_idx = 0) := by
  obtain ⟨L, hL, hz, hnz⟩ := last_idx_scan result hlen 16 0 0 (by omega)
  have hn : (cgra_pmean.MAX_OUTPUTS - 0).toNat = 16 := by decide
  by_cases hex : ∃ j, j < 16 ∧ result.getD j 0 ≠ 0
  · obtain ⟨j, hj1, hj2⟩ := hex
    obtain ⟨m, hm0, _, hm1, hm2, hm3⟩ := hnz ⟨j, by omega, hj1, hj2⟩
    refine ⟨m, hm1, ?_, fun _ => ⟨hm2, hm3⟩, fun hall => absurd (hall j hj1) hj2⟩
    unfold cgra_pmean.main_collect
    rw [hn]
    simp only [Nat.cast_zero] at hL
    simp only [hL, hm0, readAt_ofNat result m (by omega)]
  · have hall : ∀ j, j < 16 → result.getD j 0 = 0 := by
      intro j h1
      by_contra hne
      exact hex ⟨j, h1, hne⟩
    have hL0 : L = 0 := hz (fun j _ hj => hall j hj)
    refine ⟨0, by omega, ?_, fun h => absurd h hex, fun _ => rfl⟩
    unfold cgra_pmean.main_collect
    rw [hn]
    simp only [Nat.cast_zero] at hL
    have hr0 : readAt result 0 = .ok (result.getD 0 0) := readAt_ofNat result 0 (by omega)
    simp only [hL, hL0, hr0, Nat.cast_zero]

theorem getD_append_zeros_left (vs : List Int) (k j : Nat) (h : j < vs.length) :
    (vs ++ List.replicate k 0).getD j 0 = vs.getD j 0 := by
  simp [List.getD_eq_getElem?_getD, List.getElem?_append_left h]

theorem getD_append_zeros_right (vs : List Int) (k j : Nat) (h : vs.length ≤ j) :
    (vs ++ List.replicate k 0).getD j 0 = 0 := by
  rw [List.getD_eq_getElem?_getD, List.getElem?_append_right h]
  by_cases hk : j - vs.length < k
  · simp [List.getElem?_replicate, hk]
  · simp [List.getElem?_replicate, hk]

theorem getLast_eq_getD (vs : List Int) (hvs : vs ≠ []) :
    vs.getLast hvs = vs.getD (vs.length - 1) 0 := by
  have hpos : 0 < vs.length := List.length_pos.mpr hvs
  rw [List.getLast_eq_getElem, List.getD_eq_getElem?_getD,
    List.getElem?_eq_getElem (by omega)]
  rfl

/-! ## Lemmas on `sha_transform` -/

theorem sha_body_ofNat (W : List Int) (i : Nat) (h16 : 16 ≤ i) (hi : i < W.length) :
    sha.sha_body (i : Int) W = .ok (W.set i (sha_mix W i)) := by
  have h3 : ((i : Int) - 3) = ((i - 3 : Nat) : Int) := by omega
  have h8 : ((i : Int) - 8) = ((i - 8 : Nat) : Int) := by omega
  have h14 : ((i : Int) - 14) = ((i - 14 : Nat) : Int) := by omega
  have h16 : ((i : Int) - 16) = ((i - 16 : Nat) : Int) := by omega
  unfold sha.sha_body
  rw [h3, h8, h14, h16, readAt_ofNat W (i - 3) (by omega), readAt_ofNat W (i - 8) (by omega),
    readAt_ofNat W (i - 14) (by omega), readAt_ofNat W (i - 16) (by omega)]
  exact writeAt_ofNat W i _ hi

theorem sha_loop_spec : ∀ (n i : Nat) (W : List Int), W.length = 80 → 16 ≤ i → i + n = 80 →
    ∃ W1, forRange (i : Int) n sha.sha_body W = .ok W1 ∧ W1.length = 80
      ∧ (∀ j, j < i → W1.getD j 0 = W.getD j 0)
      ∧ (∀ j, i ≤ j → j < 80 → W1.getD j 0 = sha_mix W1 j) := by
  intro n
  induction n with
  | zero =>
    intro i W hlen _ hi
    exact ⟨W, rfl, hlen, fun _ _ => rfl, fun j h1 h2 => by omega⟩
  | succ n ih =>
    intro i W hlen h16 hi
    obtain ⟨W1, hrun, hlen1, hlow, hhigh⟩ :=
      ih (i + 1) (W.set i (sha_mix W i)) (by simp [hlen]) (by omega) (by omega)
    refine ⟨W1, ?_, hlen1, ?_, ?_⟩
    · simp only [forRange, sha_body_ofNat W i h16 (by omega)]
      push_cast at hrun
      exact hrun
    · intro j hj
      rw [hlow j (by omega), getD_set_other W i j _ (by omega)]
    · intro j hj1 hj2
      by_cases hji : j = i
      · subst hji
        rw [hlow j (by omega), getD_set_self W j _ (by omega)]
        unfold sha_mix
        rw [hlow (j - 3) (by omega), hlow (j - 8) (by omega), hlow (j - 14) (by omega),
          hlow (j - 16) (by omega), getD_set_other W j _ _ (by omega),
          getD_set_other W j _ _ (by omega), getD_set_other W j _ _ (by omega),
          getD_set_other W j _ _ (by omega)]
      · exact hhigh j (by omega) hj2

theorem sha_determined (A B : List Int) (hA : A.length = 80) (hB : B.length = 80)
    (hseed : ∀ j, j < 16 → A.getD j 0 = B.getD j 0)
    (hAm : ∀ j, 16 ≤ j → j < 80 → A.getD j 0 = sha_mix A j)
    (hBm : ∀ j, 16 ≤ j → j < 80 → B.getD j 0 = sha_mix B j) : A = B := by
  have key : ∀ j, j < 80 → A.getD j 0 = B.getD j 0 := by
    intro j
    induction j using Nat.strong_induction_on with
    | _ j ih =>
      intro hj
      by_cases h16 : j < 16
      · exact hseed j h16
      · rw [hAm j (by omega) hj, hBm j (by omega) hj]
        unfold sha_mix
        rw [ih (j - 3) (by omega) (by omega), ih (j - 8) (by omega) (by omega),
          ih (j - 14) (by omega) (by omega), ih (j - 16) (by omega) (by omega)]
  apply List.ext_getElem (by rw [hA, hB])
  intro j h1 h2
  have := key j (by omega)
  simpa [List.getD_eq_getElem?_getD, List.getElem?_eq_getElem h1,
    List.getElem?_eq_getElem h2] using this

/-! ## Lemmas on the wait loop -/

theorem pmean_shape : WaitShape cgra_pmean.main_ops 24 :=
  ⟨by decide, by decide, by decide, by decide, by decide, by decide⟩

theorem add_shape : WaitShape cgra_simple_add.main_ops 24 :=
  ⟨by decide, by decide, by decide, by decide, by decide, by decide⟩

theorem waitInv_init (L : Nat) (f0 : Int) : WaitInv L (HState.init f0) := by
  refine ⟨?_, ?_, ?_, ?_⟩ <;> simp [HState.init]

theorem waitInv_step (prog : List Op) (L : Nat) (hs : WaitShape prog L) (a : Actor)
    (s s1 : HState) (hinv : WaitInv L s) (h : hstep prog a s = some s1) : WaitInv L s1 := by
  obtain ⟨hk, hc, ht, hw, hpre, hpost⟩ := hs
  obtain ⟨i1, i2, i3, i4⟩ := hinv
  cases a with
  | irq =>
    simp only [hstep] at h
    split at h
    · injection h with h
      subst h
      refine ⟨?_, ?_, ?_, ?_⟩
      · intro _ _; simp [handler_irq_cgra]
      · exact i2
      · intro hpc
        have := i3 hpc
        exact ⟨this.1, by simp [handler_irq_cgra]; exact this.2⟩
      · intro hpc
        simp [handler_irq_cgra]
    · cases h
  | harness =>
    simp only [hstep] at h
    cases hop : prog[s.pc]? with
    | none => rw [hop] at h; cases h
    | some op =>
      rw [hop] at h
      injection h with h
      subst h
      have hlen : s.pc < prog.length := by
        by_contra hge
        rw [List.getElem?_eq_none (by omega)] at hop
        cases hop
      have e0 : s.pc = L → op = Op.setKernel := fun e => by
        rw [e, hk] at hop; exact (Option.some.inj hop).symm
      have e1 : s.pc = L + 1 → op = Op.clearFlag := fun e => by
        rw [e, hc] at hop; exact (Option.some.inj hop).symm
      have e2 : s.pc = L + 2 → op = Op.loopTest := fun e => by
        rw [e, ht] at hop; exact (Option.some.inj hop).symm
      have e3 : s.pc = L + 3 → op = Op.waitForInterrupt := fun e => by
        rw [e, hw] at hop; exact (Option.some.inj hop).symm
      have elt : s.pc < L → op ≠ Op.setKernel ∧ op ≠ Op.loopTest
          ∧ op ≠ Op.waitForInterrupt := fun e => by
        have := hpre s.pc e
        rw [hop] at this
        simpa using this
      have egt : L + 3 < s.pc → op.isStmt = true := fun e => by
        have := hpost s.pc hlen e
        rw [hop] at this
        simpa using this
      cases op with
      | stmt n =>
        have n0 : s.pc ≠ L := fun e => by cases e0 e
        have n1 : s.pc ≠ L + 1 := fun e => by cases e1 e
        have n3 : s.pc ≠ L + 3 := fun e => by cases e3 e
        refine ⟨i1, fun hpc => i2 (by simp [execOp] at hpc; omega),
          fun hpc => i3 (by simp [execOp] at hpc; omega),
          fun hpc => i4 (by simp [execOp] at hpc; omega)⟩
      | plicSetPriority =>
        have g : ¬ L + 3 < s.pc := fun e => by simpa [Op.isStmt] using egt e
        have n0 : s.pc ≠ L := fun e => by cases e0 e
        have n1 : s.pc ≠ L + 1 := fun e => by cases e1 e
        have n2 : s.pc ≠ L + 2 := fun e => by cases e2 e
        have n3 : s.pc ≠ L + 3 := fun e => by cases e3 e
        refine ⟨i1, fun hpc => i2 (by simp [execOp] at hpc; omega),
          fun hpc => i3 (by simp [execOp] at hpc; omega),
          fun hpc => i4 (by simp [execOp] at hpc; omega)⟩
      | plicSetEnabled =>
        have g : ¬ L + 3 < s.pc := fun e => by simpa [Op.isStmt] using egt e
        have n0 : s.pc ≠ L := fun e => by cases e0 e
        have n1 : s.pc ≠ L + 1 := fun e => by cases e1 e
        have n2 : s.pc ≠ L + 2 := fun e => by cases e2 e
        have n3 : s.pc ≠ L + 3 := fun e => by cases e3 e
        refine ⟨i1, fun hpc => i2 (by simp [execOp] at hpc; omega),
          fun hpc => i3 (by simp [execOp] at hpc; omega),
          fun hpc => i4 (by simp [execOp] at hpc; omega)⟩
      | plicAssignHandler =>
        have g : ¬ L + 3 < s.pc := fun e => by simpa [Op.isStmt] using egt e
        have n0 : s.pc ≠ L := fun e => by cases e0 e
        have n1 : s.pc ≠ L + 1 := fun e => by cases e1 e
        have n2 : s.pc ≠ L + 2 := fun e => by cases e2 e
        have n3 : s.pc ≠ L + 3 := fun e => by cases e3 e
        refine ⟨i1, fun hpc => i2 (by simp [execOp] at hpc; omega),
          fun hpc => i3 (by simp [execOp] at hpc; omega),
          fun hpc => i4 (by simp [execOp] at hpc; omega)⟩
      | setMstatusMie =>
        have g : ¬ L + 3 < s.pc := fun e => by simpa [Op.isStmt] using egt e
        have n0 : s.pc ≠ L := fun e => by cases e0 e
        have n1 : s.pc ≠ L + 1 := fun e => by cases e1 e
        have n2 : s.pc ≠ L + 2 := fun e => by cases e2 e
        have n3 : s.pc ≠ L + 3 := fun e => by cases e3 e
        refine ⟨i1, fun hpc => i2 (by simp [execOp] at hpc; omega),
          fun hpc => i3 (by simp [execOp] at hpc; omega),
          fun hpc => i4 (by simp [execOp] at hpc; omega)⟩
      | setMieMeie =>
        have g : ¬ L + 3 < s.pc := fun e => by simpa [Op.isStmt] using egt e
        have n0 : s.pc ≠ L := fun e => by cases e0 e
        have n1 : s.pc ≠ L + 1 := fun e => by cases e1 e
        have n2 : s.pc ≠ L + 2 := fun e => by cases e2 e
        have n3 : s.pc ≠ L + 3 := fun e => by cases e3 e
        refine ⟨i1, fun hpc => i2 (by simp [execOp] at hpc; omega),
          fun hpc => i3 (by simp [execOp] at hpc; omega),
          fun hpc => i4 (by simp [execOp] at hpc; omega)⟩
      | clearFlag =>
        have g : ¬ L + 3 < s.pc := fun e => by simpa [Op.isStmt] using egt e
        have n0 : s.pc ≠ L := fun e => by cases e0 e
        have n3 : s.pc ≠ L + 3 := fun e => by cases e3 e
        refine ⟨?_, fun hpc => i2 (by simp [execOp] at hpc; omega), ?_, ?_⟩
        · intro _ hf
          exact absurd rfl hf
        · intro _
          exact ⟨rfl, Nat.zero_le _⟩
        · intro hpc
          simp [execOp] at hpc
          omega
      | setKernel =>
        have g : ¬ L + 3 < s.pc := fun e => by simpa [Op.isStmt] using egt e
        have l : ¬ s.pc < L := fun e => (elt e).1 rfl
        have n1 : s.pc ≠ L + 1 := fun e => by cases e1 e
        have n2 : s.pc ≠ L + 2 := fun e => by cases e2 e
        have n3 : s.pc ≠ L + 3 := fun e => by cases e3 e
        refine ⟨i1, fun _ => rfl, ?_, ?_⟩
        · intro hpc
          simp [execOp] at hpc
          omega
        · intro hpc
          simp [execOp] at hpc
          omega
      | loopTest =>
        have g : ¬ L + 3 < s.pc := fun e => by simpa [Op.isStmt] using egt e
        have l : ¬ s.pc < L := fun e => (elt e).2.1 rfl
        have n0 : s.pc ≠ L := fun e => by cases e0 e
        have n1 : s.pc ≠ L + 1 := fun e => by cases e1 e
        have n3 : s.pc ≠ L + 3 := fun e => by cases e3 e
        have hpc2 : s.pc = L + 2 := by omega
        have h3 := i3 (by omega)
        by_cases hf : s.cgra_intr_flag = 0
        · simp only [execOp, if_pos hf]
          refine ⟨i1, fun _ => i2 (by omega), fun _ => h3, ?_⟩
          intro hpc
          simp at hpc
          omega
        · simp only [execOp, if_neg hf]
          exact ⟨i1, fun _ => i2 (by omega), fun _ => h3, fun _ => ⟨hf, i1 h3.1 hf⟩⟩
      | waitForInterrupt =>
        have g : ¬ L + 3 < s.pc := fun e => by simpa [Op.isStmt] using egt e
        have l : ¬ s.pc < L := fun e => (elt e).2.2 rfl
        have n0 : s.pc ≠ L := fun e => by cases e0 e
        have n1 : s.pc ≠ L + 1 := fun e => by cases e1 e
        have n2 : s.pc ≠ L + 2 := fun e => by cases e2 e
        have hpc3 : s.pc = L + 3 := by omega
        refine ⟨i1, fun _ => i2 (by omega), fun _ => i3 (by omega), ?_⟩
        intro hpc
        simp [execOp] at hpc
        omega

theorem waitInv_run (prog : List Op) (L : Nat) (hs : WaitShape prog L) :
    ∀ (sched : List Actor) (s s1 : HState), WaitInv L s → hrun prog sched s = some s1 →
      WaitInv L s1 := by
  intro sched
  induction sched with
  | nil =>
    intro s s1 hinv h
    simp only [hrun] at h
    injection h with h
    subst h
    exact hinv
  | cons a as ih =>
    intro s s1 hinv h
    simp only [hrun] at h
    cases hst : hstep prog a s with
    | none => rw [hst] at h; cases h
    | some s2 =>
      rw [hst] at h
      exact ih s2 s1 (waitInv_step prog L hs a s s2 hinv hst) h

theorem hrun_append (prog : List Op) : ∀ (as bs : List Actor) (s : HState),
    hrun prog (as ++ bs) s = (hrun prog as s).bind (hrun prog bs) := by
  intro as
  induction as with
  | nil => intro bs s; rfl
  | cons a as ih =>
    intro bs s
    simp only [List.cons_append, hrun]
    cases hstep prog a s with
    | none => rfl
    | some s1 => exact ih bs s1

theorem loopTest_position (prog : List Op) (L : Nat) (hs : WaitShape prog L) (p : Nat)
    (hp : prog[p]? = some Op.loopTest) : p = L + 2 := by
  obtain ⟨hk, hc, ht, hw, hpre, hpost⟩ := hs
  have hlen : p < prog.length := by
    by_contra hge
    rw [List.getElem?_eq_none (by omega)] at hp
    cases hp
  have l : ¬ p < L := fun e => (hpre p e).2.1 hp
  have g : ¬ L + 3 < p := fun e => by
    have := hpost p hlen e
    rw [hp] at this
    simp [Op.isStmt] at this
  have n0 : p ≠ L := fun e => by rw [e, hk] at hp; cases hp
  have n1 : p ≠ L + 1 := fun e => by rw [e, hc] at hp; cases hp
  have n3 : p ≠ L + 3 := fun e => by rw [e, hw] at hp; cases hp
  omega

theorem exit_only_from_test (prog : List Op) (L : Nat) (hs : WaitShape prog L) (a : Actor)
    (s s1 : HState) (h : hstep prog a s = some s1) (hin : ¬ L + 3 < s.pc)
    (hout : L + 3 < s1.pc) :
    a = Actor.harness ∧ prog[s.pc]? = some Op.loopTest ∧ s.cgra_intr_flag ≠ 0 := by
  cases a with
  | irq =>
    simp only [hstep] at h
    split at h
    · injection h with h
      subst h
      exact absurd hout hin
    · cases h
  | harness =>
    simp only [hstep] at h
    cases hop : prog[s.pc]? with
    | none => rw [hop] at h; cases h
    | some op =>
      rw [hop] at h
      injection h with h
      subst h
      have e3 : s.pc = L + 3 → op = Op.waitForInterrupt := fun e => by
        rw [e, hs.hw] at hop; exact (Option.some.inj hop).symm
      cases op with
      | loopTest =>
        refine ⟨rfl, rfl, ?_⟩
        intro hf
        have hp := loopTest_position prog L hs s.pc hop
        simp [execOp, hf] at hout
        omega
      | waitForInterrupt =>
        simp [execOp] at hout
        omega
      | _ =>
        all_goals
          have n3 : s.pc ≠ L + 3 := fun e => by cases e3 e
          simp [execOp] at hout
          omega

theorem spin_in_wait_loop (prog : List Op) (p : Nat) (ht : prog[p]? = some Op.loopTest)
    (hw : prog[p + 1]? = some Op.waitForInterrupt) :
    ∀ (n : Nat) (s : HState), s.cgra_intr_flag = 0 → (s.pc = p ∨ s.pc = p + 1) →
      ∃ s1, hrun prog (List.replicate n Actor.harness) s = some s1
        ∧ s1.cgra_intr_flag = 0 ∧ (s1.pc = p ∨ s1.pc = p + 1)
        ∧ s1.launched = s.launched ∧ s1.runsSinceLaunch = s.runsSinceLaunch := by
  intro n
  induction n with
  | zero => intro s hf hpc; exact ⟨s, rfl, hf, hpc, rfl, rfl⟩
  | succ n ih =>
    intro s hf hpc
    rcases hpc with hpc | hpc
    · obtain ⟨s1, h1, h2, h3, h4, h5⟩ :=
        ih { s with pc := s.pc + 1 } hf (Or.inr (by simp [hpc]))
      refine ⟨s1, ?_, h2, h3, h4, h5⟩
      simp only [List.replicate_succ, hrun, hstep, hpc, ht, execOp, if_pos hf]
      rw [hpc] at h1
      exact h1
    · obtain ⟨s1, h1, h2, h3, h4, h5⟩ :=
        ih { s with pc := s.pc - 1 } hf (Or.inl (by simp [hpc]))
      refine ⟨s1, ?_, h2, h3, h4, h5⟩
      simp only [List.replicate_succ, hrun, hstep, hpc, hw, execOp]
      rw [hpc] at h1
      exact h1

theorem wait_loop_core (prog : List Op) (L : Nat) (hs : WaitShape prog L) (f0 : Int)
    (sched : List Actor) (s : HState) (hreach : hrun prog sched (HState.init f0) = some s) :
    (prog[s.pc]? = some Op.loopTest → s.cgra_intr_flag = 0 →
        ∃ s1, hstep prog Actor.harness s = some s1
          ∧ prog[s1.pc]? = some Op.waitForInterrupt ∧ ¬ L + 3 < s1.pc)
    ∧ (∀ a s1, hstep prog a s = some s1 → ¬ L + 3 < s.pc → L + 3 < s1.pc →
        a = Actor.harness ∧ prog[s.pc]? = some Op.loopTest ∧ s.cgra_intr_flag ≠ 0
          ∧ 1 ≤ s.runsSinceClear ∧ 1 ≤ s.runsSinceLaunch)
    ∧ (L + 3 < s.pc → s.cgra_intr_flag ≠ 0 ∧ s.cleared = true ∧ s.launched = true
        ∧ 1 ≤ s.runsSinceClear ∧ 1 ≤ s.runsSinceLaunch) := by
  obtain ⟨i1, i2, i3, i4⟩ := waitInv_run prog L hs sched _ s (waitInv_init L f0) hreach
  refine ⟨?_, ?_, ?_⟩
  · intro hop hf
    have hp := loopTest_position prog L hs s.pc hop
    refine ⟨{ s with pc := s.pc + 1 }, ?_, ?_, ?_⟩
    · simp only [hstep, hop, execOp, if_pos hf]
    · show prog[s.pc + 1]? = _
      rw [hp]
      exact hs.hw
    · show ¬ L + 3 < s.pc + 1
      omega
  · intro a s1 h hin hout
    obtain ⟨ha, hop, hf⟩ := exit_only_from_test prog L hs a s s1 h hin hout
    have hp := loopTest_position prog L hs s.pc hop
    have h3 := i3 (by omega)
    have h1 := i1 h3.1 hf
    exact ⟨ha, hop, hf, h1, by omega⟩
  · intro hpc
    have h3 := i3 (by omega)
    have h4 := i4 hpc
    exact ⟨h4.1, h3.1, i2 (by omega), h4.2, by omega⟩

/-! ## The reference models -/

/-- C8: for all `a` and `b`, `cpu_compute a b` is `a + b` reduced modulo `2^32`
into the signed 32-bit range (a value of the range, congruent to `a + b`, and
`a + b` itself when that fits); it is commutative; and on the shipped test data
`value_a = 42`, `value_b = 58` it gives 100. -/
theorem C8_cpu_compute_is_wrapped_sum (a b : Int) :
    isInt32 (cgra_simple_add.cpu_compute a b)
    ∧ (cgra_simple_add.cpu_compute a b - (a + b)) % 4294967296 = 0
    ∧ (isInt32 (a + b) → cgra_simple_add.cpu_compute a b = a + b)
    ∧ cgra_simple_add.cpu_compute a b = cgra_simple_add.cpu_compute b a
    ∧ cgra_simple_add.value_a = 42 ∧ cgra_simple_add.value_b = 58
    ∧ cgra_simple_add.cpu_compute cgra_simple_add.value_a cgra_simple_add.value_b = 100 := by
  refine ⟨wrap32_isInt32 _, ?_, fun h => wrap32_of_isInt32 _ h, ?_, rfl, rfl, by decide⟩
  · unfold cgra_simple_add.cpu_compute wrap32; omega
  · unfold cgra_simple_add.cpu_compute; rw [Int.add_comm]

/-- C10: in one step of the recurrence, with `temp = acc - prev` as a signed
32-bit value, the new `prev` is the floor of `temp / 4` (the arithmetic shift),
so `4 * prev1 <= temp < 4 * prev1 + 4` and the new `prev` is negative whenever
`temp` is; `temp = -1` gives `-1` and `temp = -5` gives `-2`, where the quotient
truncated toward zero would be `0` and `-1`. -/
theorem C10_new_prev_is_floor_quarter (step acc prev x : Int) :
    (cgra_pmean.ema_step step acc prev x).temp = wrap32 (acc - prev)
    ∧ (cgra_pmean.ema_step step acc prev x).prev = Int.fdiv (wrap32 (acc - prev)) 4
    ∧ (wrap32 (acc - prev) < 0 → (cgra_pmean.ema_step step acc prev x).prev < 0)
    ∧ 4 * (cgra_pmean.ema_step step acc prev x).prev ≤ wrap32 (acc - prev)
    ∧ wrap32 (acc - prev) < 4 * (cgra_pmean.ema_step step acc prev x).prev + 4
    ∧ ((cgra_pmean.ema_step 0 0 1 0).temp = -1 ∧ (cgra_pmean.ema_step 0 0 1 0).prev = -1)
    ∧ ((cgra_pmean.ema_step 0 0 5 0).temp = -5 ∧ (cgra_pmean.ema_step 0 0 5 0).prev = -2)
    ∧ Int.tdiv (-1) 4 = 0 ∧ Int.tdiv (-5) 4 = -1 := by
  have hp : (cgra_pmean.ema_step step acc prev x).prev = wrap32 (acc - prev) / 4 := by
    simp [cgra_pmean.ema_step, c_shr32_two]
  refine ⟨rfl, ?_, ?_, ?_, ?_, ⟨by decide, by decide⟩, ⟨by decide, by decide⟩,
    by decide, by decide⟩
  · rw [hp, Int.fdiv_eq_ediv _ (by decide)]
  · intro h; rw [hp]; omega
  · rw [hp]; omega
  · rw [hp]; omega

/-- C1: for every memory `x_0 .. x_(n-1), -1, ...` with no `x_i` equal to `-1`,
the recurrence loop of `main` ends and the expected `prev` is the second
component of the fold of the step `(acc, prev) -> (acc - prev + x, (acc - prev) >> 2)`
over `x_0 .. x_(n-1)` from `(518, 106)`, in 32-bit arithmetic; on the shipped
`input_data = [101, 110, -1]` the loop prints `temp=412, acc=513, prev=103`
then `temp=410, acc=520, prev=102` and ends with `prev = 102`. -/
theorem C1_expected_prev_is_fold (xs rest : List Int) (hxs : ∀ x ∈ xs, x ≠ -1) :
    (∃ out, cgra_pmean.main_reference (xs ++ -1 :: rest)
        = .ok ((xs.foldl cgra_pmean.spec_step (518, 106)).1,
            (xs.foldl cgra_pmean.spec_step (518, 106)).2, out))
    ∧ cgra_pmean.input_data = [101, 110, -1]
    ∧ cgra_pmean.main_reference cgra_pmean.input_data
        = .ok (520, 102, [{ step := 0, x := 101, temp := 412, acc := 513, prev := 103 },
            { step := 1, x := 110, temp := 410, acc := 520, prev := 102 }]) := by
  refine ⟨ema_loop_sentinel xs rest hxs 518 106 0 [], rfl, rfl⟩

/-- Witness of C1 at the shipped data: `xs = [101, 110]`, nothing after the
sentinel. -/
theorem C1_expected_prev_is_fold_witness :
    (∀ x ∈ [(101 : Int), 110], x ≠ -1)
    ∧ ((∃ out, cgra_pmean.main_reference ([101, 110] ++ -1 :: [])
        = .ok (([(101 : Int), 110].foldl cgra_pmean.spec_step (518, 106)).1,
            ([(101 : Int), 110].foldl cgra_pmean.spec_step (518, 106)).2, out))
      ∧ cgra_pmean.input_data = [101, 110, -1]
      ∧ cgra_pmean.main_reference cgra_pmean.input_data
        = .ok (520, 102, [{ step := 0, x := 101, temp := 412, acc := 513, prev := 103 },
            { step := 1, x := 110, temp := 410, acc := 520, prev := 102 }])) :=
  ⟨by decide, C1_expected_prev_is_fold [101, 110] [] (by decide)⟩

/-- C2: for every memory `x_0 .. x_(n-1), -1, ...` with no `x_i` equal to `-1`
(and `n` below `2^31`, as for every array of the 32-bit address space),
`cpu_pmean` returns 0 when `n = 0` and otherwise the quotient, truncated toward
zero, of the 32-bit sum by `n`; no division by zero occurs (the result is not
an error); what follows the first `-1` does not matter; `[101, 110, -1]` gives
105, `[-4, -3, -1]` gives -3 (the floor would be -4) and `[-1]` gives 0. -/
theorem C2_cpu_pmean_is_truncated_mean (xs rest : List Int) (hxs : ∀ x ∈ xs, x ≠ -1)
    (hlen : xs.length < 2147483648) :
    cgra_pmean.cpu_pmean (xs ++ -1 :: rest) = .ok (cgra_pmean.spec_mean xs)
    ∧ (xs.length = 0 → cgra_pmean.cpu_pmean (xs ++ -1 :: rest) = .ok 0)
    ∧ (xs.length ≠ 0 → cgra_pmean.cpu_pmean (xs ++ -1 :: rest)
        = .ok (Int.tdiv (wrap32 xs.sum) xs.length))
    ∧ cgra_pmean.cpu_pmean (xs ++ -1 :: rest) = cgra_pmean.cpu_pmean (xs ++ [-1])
    ∧ cgra_pmean.cpu_pmean [101, 110, -1] = .ok 105
    ∧ cgra_pmean.cpu_pmean [-4, -3, -1] = .ok (-3)
    ∧ Int.fdiv (-4 + -3) 2 = -4
    ∧ cgra_pmean.cpu_pmean [-1] = .ok 0 := by
  have key : ∀ r : List Int,
      cgra_pmean.cpu_pmean (xs ++ -1 :: r) = .ok (cgra_pmean.spec_mean xs) := by
    intro r
    have hc : wrap32 (0 + (xs.length : Int)) = xs.length := by
      unfold wrap32; omega
    unfold cgra_pmean.cpu_pmean
    rw [cpu_pmean_loop_sentinel xs r hxs 0 0 (by decide) (by decide), hc]
    unfold cgra_pmean.spec_mean
    by_cases h0 : xs.length = 0
    · simp [h0]
    · have h1 : (xs.length : Int) ≠ 0 := by omega
      have h2 : ¬ (wrap32 (0 + xs.sum) = -2147483648 ∧ (xs.length : Int) = -1) := by omega
      simp [h0, h1, c_div32]
  refine ⟨key rest, ?_, ?_, ?_, rfl, rfl, by decide, rfl⟩
  · intro h0; rw [key rest]; simp [cgra_pmean.spec_mean, h0]
  · intro h0; rw [key rest]; simp [cgra_pmean.spec_mean, h0]
  · rw [key rest, key []]

/-- Witness of C2 at `xs = [-4, -3]`, followed by the sentinel and one more
word. -/
theorem C2_cpu_pmean_is_truncated_mean_witness :
    (∀ x ∈ [(-4 : Int), -3], x ≠ -1) ∧ [(-4 : Int), -3].length < 2147483648
    ∧ cgra_pmean.cpu_pmean ([-4, -3] ++ -1 :: [7]) = .ok (cgra_pmean.spec_mean [-4, -3]) :=
  ⟨by decide, by decide,
    (C2_cpu_pmean_is_truncated_mean [-4, -3] [7] (by decide) (by decide)).1⟩

/-- C3: on every 80-word buffer `W`, `sha_transform` returns a buffer `W1` of
80 words with `W1[i] = W[i]` for `i` in 0..15 and
`W1[i] = W1[i-3] xor W1[i-8] xor W1[i-14] xor W1[i-16]` for `i` in 16..79; in
particular `W1[16] = W[13] xor W[8] xor W[2] xor W[0]`; and `W1` does not
depend on `W[16..79]`: every 80-word buffer with the same first 16 words gives
the same `W1`. -/
theorem C3_sha_transform_schedule (W : List Int) (hlen : W.length = 80) :
    ∃ W1, sha.sha_transform W = .ok W1 ∧ W1.length = 80
      ∧ (∀ i, i < 16 → W1.getD i 0 = W.getD i 0)
      ∧ (∀ i, 16 ≤ i → i < 80 → W1.getD i 0
          = Int.xor (Int.xor (Int.xor (W1.getD (i - 3) 0) (W1.getD (i - 8) 0))
              (W1.getD (i - 14) 0)) (W1.getD (i - 16) 0))
      ∧ W1.getD 16 0
          = Int.xor (Int.xor (Int.xor (W.getD 13 0) (W.getD 8 0)) (W.getD 2 0)) (W.getD 0 0)
      ∧ (∀ V : List Int, V.length = 80 → (∀ i, i < 16 → V.getD i 0 = W.getD i 0) →
          sha.sha_transform V = .ok W1) := by
  have hn : (sha.N_ITERS - 16).toNat = 64 := by decide
  obtain ⟨W1, hrun, hlen1, hlow, hhigh⟩ := sha_loop_spec 64 16 W hlen (by omega) (by omega)
  refine ⟨W1, ?_, hlen1, hlow, hhigh, ?_, ?_⟩
  · unfold sha.sha_transform
    rw [hn]
    exact hrun
  · rw [hhigh 16 (by omega) (by omega)]
    unfold sha_mix
    rw [hlow 13 (by omega), hlow 8 (by omega), hlow 2 (by omega), hlow 0 (by omega)]
  · intro V hV hseed
    obtain ⟨V1, hrunV, hlenV, hlowV, hhighV⟩ := sha_loop_spec 64 16 V hV (by omega) (by omega)
    have : V1 = W1 := sha_determined V1 W1 hlenV hlen1
      (fun j hj => by rw [hlowV j hj, hlow j hj, hseed j hj])
      (fun j h1 h2 => hhighV j h1 h2) (fun j h1 h2 => hhigh j h1 h2)
    unfold sha.sha_transform
    rw [hn, ← this]
    exact hrunV

/-- Witness of C3 at the buffer of 80 words all equal to 5. -/
theorem C3_sha_transform_schedule_witness :
    (List.replicate 80 (5 : Int)).length = 80
    ∧ ∃ W1, sha.sha_transform (List.replicate 80 (5 : Int)) = .ok W1 ∧ W1.length = 80
      ∧ (∀ i, i < 16 → W1.getD i 0 = (List.replicate 80 (5 : Int)).getD i 0)
      ∧ (∀ i, 16 ≤ i → i < 80 → W1.getD i 0
          = Int.xor (Int.xor (Int.xor (W1.getD (i - 3) 0) (W1.getD (i - 8) 0))
              (W1.getD (i - 14) 0)) (W1.getD (i - 16) 0))
      ∧ W1.getD 16 0
          = Int.xor (Int.xor (Int.xor ((List.replicate 80 (5 : Int)).getD 13 0)
              ((List.replicate 80 (5 : Int)).getD 8 0)) ((List.replicate 80 (5 : Int)).getD 2 0))
              ((List.replicate 80 (5 : Int)).getD 0 0)
      ∧ (∀ V : List Int, V.length = 80 →
          (∀ i, i < 16 → V.getD i 0 = (List.replicate 80 (5 : Int)).getD i 0) →
          sha.sha_transform V = .ok W1) :=
  ⟨by decide, C3_sha_transform_schedule (List.replicate 80 5) (by decide)⟩

/-- C4: on every output buffer of 9 elements, `conv2D` (with the shipped
`In_Img = [1..9]` and the filter of nine coefficients 1) stores to exactly one
index, 4, and leaves the other eight elements unchanged; the value stored is
the sum over `k = 0..8` of `Filter_Kern[k] * In_Img[k]`, accumulated in 32
bits and narrowed to the 16-bit pixel, which is 45. -/
theorem C4_conv2D_stores_center_only (Out_Img : List Int) (hlen : Out_Img.length = 9) :
    conv.conv2D Out_Img = .ok (Out_Img.set 4 45, [4])
    ∧ (Out_Img.set 4 45).length = 9
    ∧ (Out_Img.set 4 45).getD 4 0 = 45
    ∧ (∀ i, i ≠ 4 → (Out_Img.set 4 45).getD i 0 = Out_Img.getD i 0)
    ∧ conv.In_Img = [1, 2, 3, 4, 5, 6, 7, 8, 9]
    ∧ conv.Filter_Kern = [1, 1, 1, 1, 1, 1, 1, 1, 1]
    ∧ conv.conv_window 1 1 = .ok conv.spec_weighted_sum
    ∧ wrap16 conv.spec_weighted_sum = 45 := by
  refine ⟨conv2D_eq Out_Img hlen, by simp [hlen], getD_set_self Out_Img 4 45 (by omega),
    fun i hi => getD_set_other Out_Img 4 i 45 (fun e => hi e.symm), rfl, by decide, rfl,
    by decide⟩

/-- Witness of C4 at the output buffer `[9, 8, 7, 6, 5, 4, 3, 2, 1]`. -/
theorem C4_conv2D_stores_center_only_witness :
    [(9 : Int), 8, 7, 6, 5, 4, 3, 2, 1].length = 9
    ∧ conv.conv2D [9, 8, 7, 6, 5, 4, 3, 2, 1] = .ok ([9, 8, 7, 6, 45, 4, 3, 2, 1], [4]) :=
  ⟨by decide, (C4_conv2D_stores_center_only [9, 8, 7, 6, 5, 4, 3, 2, 1] (by decide)).1⟩

/-- C9: on every result buffer of 16 slots the collect step of `main` ends and
takes `cgra_final = result[last_idx]`, where `last_idx` is the greatest index
in 0..15 of a non-zero slot when there is one, and 0 when every slot is zero;
so `cgra_final` is 0 exactly when all 16 slots are zero, and a buffer whose
last non-zero slot is followed only by zeros gives that last non-zero value. -/
theorem C9_collect_takes_last_nonzero (result : List Int) (hlen : result.length = 16) :
    ∃ last_idx : Nat, last_idx < 16
      ∧ cgra_pmean.main_collect result = .ok ((last_idx : Int), result.getD last_idx 0)
      ∧ ((∃ i, i < 16 ∧ result.getD i 0 ≠ 0) →
          result.getD last_idx 0 ≠ 0 ∧ ∀ j, last_idx < j → j < 16 → result.getD j 0 = 0)
      ∧ ((∀ i, i < 16 → result.getD i 0 = 0) → last_idx = 0)
      ∧ (result.getD last_idx 0 = 0 ↔ ∀ i, i < 16 → result.getD i 0 = 0)
      ∧ (∀ (vs : List Int) (k : Nat) (hvs : vs ≠ []), result = vs ++ List.replicate k 0 →
          vs.getLast hvs ≠ 0 → result.getD last_idx 0 = vs.getLast hvs) := by
  obtain ⟨last_idx, hlt, hmc, hnz, hz⟩ := main_collect_spec result hlen
  refine ⟨last_idx, hlt, hmc, hnz, hz, ⟨?_, fun hall => hall last_idx hlt⟩, ?_⟩
  · intro h0
    by_contra hne
    have hex : ∃ i, i < 16 ∧ result.getD i 0 ≠ 0 := by
      by_contra hno
      exact hne (fun i hi => by
        by_contra hi0
        exact hno ⟨i, hi, hi0⟩)
    exact (hnz hex).1 h0
  · intro vs k hvs hres hlast
    have hpos : 0 < vs.length := List.length_pos.mpr hvs
    have hvl : vs.length ≤ 16 := by
      have := congrArg List.length hres
      simp at this
      omega
    have hm : result.getD (vs.length - 1) 0 = vs.getLast hvs := by
      rw [hres, getD_append_zeros_left vs k _ (by omega), getLast_eq_getD]
    obtain ⟨hne, hafter⟩ := hnz ⟨vs.length - 1, by omega, by rw [hm]; exact hlast⟩
    have h1 : last_idx < vs.length := by
      by_contra hge
      apply hne
      rw [hres]
      exact getD_append_zeros_right vs k last_idx (by omega)
    have h2 : ¬ last_idx < vs.length - 1 := by
      intro hlt2
      have := hafter (vs.length - 1) hlt2 (by omega)
      rw [hm] at this
      exact hlast this
    have h3 : last_idx = vs.length - 1 := by omega
    rw [h3, hm]


/-- Witness of C9 at the buffer holding 103, 102 and fourteen zeros. -/
theorem C9_collect_takes_last_nonzero_witness :
    [(103 : Int), 102, 0, 0, 0, 0, 0, 0, 0, 0, 0, 0, 0, 0, 0, 0].length = 16
    ∧ ∃ last_idx : Nat, last_idx < 16
      ∧ cgra_pmean.main_collect [(103 : Int), 102, 0, 0, 0, 0, 0, 0, 0, 0, 0, 0, 0, 0, 0, 0]
          = .ok ((last_idx : Int), [(103 : Int), 102, 0, 0, 0, 0, 0, 0, 0, 0, 0, 0, 0, 0, 0, 0].getD last_idx 0)
      ∧ ((∃ i, i < 16 ∧ [(103 : Int), 102, 0, 0, 0, 0, 0, 0, 0, 0, 0, 0, 0, 0, 0, 0].getD i 0 ≠ 0) →
          [(103 : Int), 102, 0, 0, 0, 0, 0, 0, 0, 0, 0, 0, 0, 0, 0, 0].getD last_idx 0 ≠ 0
          ∧ ∀ j, last_idx < j → j < 16 → [(103 : Int), 102, 0, 0, 0, 0, 0, 0, 0, 0, 0, 0, 0, 0, 0, 0].getD j 0 = 0)
      ∧ ((∀ i, i < 16 → [(103 : Int), 102, 0, 0, 0, 0, 0, 0, 0, 0, 0, 0, 0, 0, 0, 0].getD i 0 = 0) → last_idx = 0)
      ∧ ([(103 : Int), 102, 0, 0, 0, 0, 0, 0, 0, 0, 0, 0, 0, 0, 0, 0].getD last_idx 0 = 0 ↔ ∀ i, i < 16 → [(103 : Int), 102, 0, 0, 0, 0, 0, 0, 0, 0, 0, 0, 0, 0, 0, 0].getD i 0 = 0)
      ∧ (∀ (vs : List Int) (k : Nat) (hvs : vs ≠ []),
          [(103 : Int), 102, 0, 0, 0, 0, 0, 0, 0, 0, 0, 0, 0, 0, 0, 0] = vs ++ List.replicate k 0 →
          vs.getLast hvs ≠ 0 → [(103 : Int), 102, 0, 0, 0, 0, 0, 0, 0, 0, 0, 0, 0, 0, 0, 0].getD last_idx 0 = vs.getLast hvs) :=
  ⟨by decide, C9_collect_takes_last_nonzero [(103 : Int), 102, 0, 0, 0, 0, 0, 0, 0, 0, 0, 0, 0, 0, 0, 0] (by decide)⟩

/-- C5: with the memory the accelerator leaves as an arbitrary input, each
harness `main` returns `EXIT_SUCCESS` (0) with 0 errors when the collected
accelerator result equals the software reference (the final `prev` for
`cgra_pmean`, `cpu_compute(value_a, value_b)` for `cgra_simple_add`), and
`EXIT_FAILURE` (nonzero) with 1 error when it differs. -/
theorem C5_exit_status_iff_match (xs rest result : List Int) (hxs : ∀ x ∈ xs, x ≠ -1)
    (hlen : result.length = 16) :
    (∃ acc prev out last_idx cgra_final,
        cgra_pmean.main_reference (xs ++ -1 :: rest) = .ok (acc, prev, out)
        ∧ cgra_pmean.main_collect result = .ok (last_idx, cgra_final)
        ∧ (cgra_final = prev →
            cgra_pmean.main (xs ++ -1 :: rest) result = .ok (EXIT_SUCCESS, 0))
        ∧ (cgra_final ≠ prev →
            cgra_pmean.main (xs ++ -1 :: rest) result = .ok (EXIT_FAILURE, 1)))
    ∧ (∀ a b a_after : Int,
        (a_after = cgra_simple_add.cpu_compute a b →
            cgra_simple_add.main a b a_after = (EXIT_SUCCESS, 0))
        ∧ (a_after ≠ cgra_simple_add.cpu_compute a b →
            cgra_simple_add.main a b a_after = (EXIT_FAILURE, 1)))
    ∧ EXIT_SUCCESS = 0 ∧ EXIT_FAILURE ≠ 0 ∧ EXIT_FAILURE ≠ EXIT_SUCCESS := by
  obtain ⟨out, href⟩ := ema_loop_sentinel xs rest hxs 518 106 0 []
  obtain ⟨last_idx, _, hmc, _, _⟩ := main_collect_spec result hlen
  refine ⟨⟨_, _, out, _, _, href, hmc, ?_, ?_⟩, ?_, rfl, by decide, by decide⟩
  · intro heq
    unfold cgra_pmean.main
    simp only [cgra_pmean.main_reference, href, hmc, if_neg (not_not.mpr heq)]
    rfl
  · intro hne
    unfold cgra_pmean.main
    simp only [cgra_pmean.main_reference, href, hmc, if_pos hne]
    rfl
  · intro a b a_after
    constructor
    · intro h
      unfold cgra_simple_add.main
      simp only [if_neg (not_not.mpr h)]
      rfl
    · intro h
      unfold cgra_simple_add.main
      simp only [if_pos h]
      rfl

/-- Witness of C5 at the shipped input `[101, 110, -1]` and the result buffer
holding 103, 102 and fourteen zeros. -/
theorem C5_exit_status_iff_match_witness :
    (∀ x ∈ [(101 : Int), 110], x ≠ -1)
    ∧ [(103 : Int), 102, 0, 0, 0, 0, 0, 0, 0, 0, 0, 0, 0, 0, 0, 0].length = 16
    ∧ (∃ acc prev out last_idx cgra_final,
        cgra_pmean.main_reference ([101, 110] ++ -1 :: []) = .ok (acc, prev, out)
        ∧ cgra_pmean.main_collect [(103 : Int), 102, 0, 0, 0, 0, 0, 0, 0, 0, 0, 0, 0, 0, 0, 0] = .ok (last_idx, cgra_final)
        ∧ (cgra_final = prev →
            cgra_pmean.main ([101, 110] ++ -1 :: []) [(103 : Int), 102, 0, 0, 0, 0, 0, 0, 0, 0, 0, 0, 0, 0, 0, 0] = .ok (EXIT_SUCCESS, 0))
        ∧ (cgra_final ≠ prev →
            cgra_pmean.main ([101, 110] ++ -1 :: []) [(103 : Int), 102, 0, 0, 0, 0, 0, 0, 0, 0, 0, 0, 0, 0, 0, 0] = .ok (EXIT_FAILURE, 1))) :=
  ⟨by decide, by decide,
    (C5_exit_status_iff_match [101, 110] [] [(103 : Int), 102, 0, 0, 0, 0, 0, 0, 0, 0, 0, 0, 0, 0, 0, 0] (by decide) (by decide)).1⟩

/-! ## The completion flag protocol -/

/-- C7: in every run of either harness in which `handler_irq_cgra` runs at any
point where the interrupt is enabled (its only effect: the flag becomes 1), the
wait loop is not left while the flag is 0 (at the loop test with the flag 0 the
next statement is the loop body), a step leaves the loop only from the loop
test with the flag non-zero, and whenever the loop has been left the handler
has run at least once since `main` last stored 0 to the flag, hence at least
once since the launch. -/
theorem C7_wait_loop_left_only_after_handler (prog : List Op)
    (hprog : prog = cgra_pmean.main_ops ∨ prog = cgra_simple_add.main_ops)
    (f0 : Int) (sched : List Actor) (s : HState)
    (hreach : hrun prog sched (HState.init f0) = some s) :
    (prog[s.pc]? = some Op.loopTest → s.cgra_intr_flag = 0 →
        ∃ s1, hstep prog Actor.harness s = some s1
          ∧ prog[s1.pc]? = some Op.waitForInterrupt ∧ ¬ s1.exited prog)
    ∧ (∀ a s1, hstep prog a s = some s1 → ¬ s.exited prog → s1.exited prog →
        a = Actor.harness ∧ prog[s.pc]? = some Op.loopTest ∧ s.cgra_intr_flag ≠ 0
          ∧ 1 ≤ s.runsSinceClear ∧ 1 ≤ s.runsSinceLaunch)
    ∧ (s.exited prog → s.cgra_intr_flag ≠ 0 ∧ s.cleared = true ∧ s.launched = true
        ∧ 1 ≤ s.runsSinceClear ∧ 1 ≤ s.runsSinceLaunch)
    ∧ (∀ s1, hstep prog Actor.irq s = some s1 →
        s.irqEnabled = true
        ∧ s1 = { s with cgra_intr_flag := 1, runsSinceClear := s.runsSinceClear + 1,
                        runsSinceLaunch := s.runsSinceLaunch + 1 }) := by
  have hirq : ∀ s1, hstep prog Actor.irq s = some s1 →
      s.irqEnabled = true
      ∧ s1 = { s with cgra_intr_flag := 1, runsSinceClear := s.runsSinceClear + 1,
                      runsSinceLaunch := s.runsSinceLaunch + 1 } := by
    intro s1 h
    simp only [hstep] at h
    split at h
    · injection h with h
      subst h
      exact ⟨by assumption, rfl⟩
    · cases h
  rcases hprog with hp | hp
  · subst hp
    have hidx : cgra_pmean.main_ops.indexOf Op.waitForInterrupt = 24 + 3 := by decide
    have core := wait_loop_core cgra_pmean.main_ops 24 pmean_shape f0 sched s hreach
    unfold HState.exited
    rw [hidx]
    exact ⟨core.1, core.2.1, core.2.2, hirq⟩
  · subst hp
    have hidx : cgra_simple_add.main_ops.indexOf Op.waitForInterrupt = 24 + 3 := by decide
    have core := wait_loop_core cgra_simple_add.main_ops 24 add_shape f0 sched s hreach
    unfold HState.exited
    rw [hidx]
    exact ⟨core.1, core.2.1, core.2.2, hirq⟩

/-- Witness of C7: the run of `cgra_pmean` in which `main` reaches the loop
test (26 statements), the handler runs once, and `main` leaves the loop. -/
theorem C7_wait_loop_left_only_after_handler_witness :
    (cgra_pmean.main_ops = cgra_pmean.main_ops ∨ cgra_pmean.main_ops = cgra_simple_add.main_ops)
    ∧ hrun cgra_pmean.main_ops
        (List.replicate 26 Actor.harness ++ [Actor.irq, Actor.harness]) (HState.init 0)
        = some HState.leftLoop
    ∧ HState.exited cgra_pmean.main_ops HState.leftLoop
    ∧ (HState.leftLoop.cgra_intr_flag ≠ 0 ∧ HState.leftLoop.cleared = true
        ∧ HState.leftLoop.launched = true
        ∧ 1 ≤ HState.leftLoop.runsSinceClear ∧ 1 ≤ HState.leftLoop.runsSinceLaunch) :=
  ⟨Or.inl rfl, by decide, by decide,
    (C7_wait_loop_left_only_after_handler cgra_pmean.main_ops (Or.inl rfl) 0
      (List.replicate 26 Actor.harness ++ [Actor.irq, Actor.harness])
      HState.leftLoop (by decide)).2.2.1 (by decide)⟩

/-- C6 (what the code does): in both harnesses the statement after the launch
`cgra_set_kernel` is the store `cgra_intr_flag = 0`, so `main` writes the flag
after the launch.  In the run where the handler runs right after the launch
(25 statements, then the interrupt), the next statement of `main` overwrites
the flag with 0: after any number `n` of further statements, with no further
interrupt, the handler has run once since the launch, the flag is 0 and `main`
is still in the wait loop. -/
theorem C6_flag_stored_after_launch :
    (cgra_pmean.main_ops[24]? = some Op.setKernel
      ∧ cgra_pmean.main_ops[25]? = some Op.clearFlag)
    ∧ (cgra_simple_add.main_ops[24]? = some Op.setKernel
      ∧ cgra_simple_add.main_ops[25]? = some Op.clearFlag)
    ∧ (∃ s, hrun cgra_pmean.main_ops (List.replicate 25 Actor.harness ++ [Actor.irq])
          (HState.init 0) = some s
        ∧ s.launched = true ∧ s.runsSinceLaunch = 1 ∧ s.cgra_intr_flag = 1)
    ∧ (∀ n, ∃ s, hrun cgra_pmean.main_ops
          ((List.replicate 25 Actor.harness ++ [Actor.irq, Actor.harness])
            ++ List.replicate n Actor.harness) (HState.init 0) = some s
        ∧ s.launched = true ∧ s.runsSinceLaunch = 1 ∧ s.cgra_intr_flag = 0
        ∧ ¬ s.exited cgra_pmean.main_ops)
    ∧ (∀ n, ∃ s, hrun cgra_simple_add.main_ops
          ((List.replicate 25 Actor.harness ++ [Actor.irq, Actor.harness])
            ++ List.replicate n Actor.harness) (HState.init 0) = some s
        ∧ s.launched = true ∧ s.runsSinceLaunch = 1 ∧ s.cgra_intr_flag = 0
        ∧ ¬ s.exited cgra_simple_add.main_ops) := by
  refine ⟨⟨by decide, by decide⟩, ⟨by decide, by decide⟩, ⟨_, rfl, rfl, rfl, rfl⟩, ?_, ?_⟩
  · intro n
    have hpre : hrun cgra_pmean.main_ops
        (List.replicate 25 Actor.harness ++ [Actor.irq, Actor.harness]) (HState.init 0)
        = some HState.lostSignal := by decide
    obtain ⟨s1, h1, h2, h3, h4, h5⟩ :=
      spin_in_wait_loop cgra_pmean.main_ops 26 (by decide) (by decide) n HState.lostSignal rfl (Or.inl rfl)
    refine ⟨s1, ?_, h4, h5, h2, ?_⟩
    · rw [hrun_append, hpre]
      exact h1
    · have hidx : cgra_pmean.main_ops.indexOf Op.waitForInterrupt = 27 := by decide
      unfold HState.exited
      rw [hidx]
      omega
  · intro n
    have hpre : hrun cgra_simple_add.main_ops
        (List.replicate 25 Actor.harness ++ [Actor.irq, Actor.harness]) (HState.init 0)
        = some HState.lostSignal := by decide
    obtain ⟨s1, h1, h2, h3, h4, h5⟩ :=
      spin_in_wait_loop cgra_simple_add.main_ops 26 (by decide) (by decide) n HState.lostSignal rfl
        (Or.inl rfl)
    refine ⟨s1, ?_, h4, h5, h2, ?_⟩
    · rw [hrun_append, hpre]
      exact h1
    · have hidx : cgra_simple_add.main_ops.indexOf Op.waitForInterrupt = 27 := by decide
      unfold HState.exited
      rw [hidx]
      omega

end HEEPsilon
